import Mathlib

/-!
Shallow embedding of the LangGraph agent core
(`app/core/langgraph/graph.py`, `app/utils/graph.py`,
`app/schemas/graph.py`, `app/api/v1/chatbot.py`) and proofs of the
spec claims about it.

Messages are modelled in the OpenAI dict style used throughout the
source: a role string among "system" / "user" / "assistant" / "tool",
a text content (Python `None` content is modelled as the empty
string, which the source's truthiness tests treat identically), an
ordered list of tool calls, and the optional correlation fields of
tool messages.
-/

namespace Agent

/-- A tool call attached to an assistant message: `{id, name, args}`
(arguments are opaque here). -/
structure ToolCall where
  id : String
  name : String
  args : String
deriving DecidableEq, Repr

/-- A chat message in OpenAI style, as produced by
`convert_to_openai_messages` / consumed by the graph nodes. -/
structure Msg where
  role : String
  content : String
  tool_calls : List ToolCall := []
  tool_call_id : Option String := none
  name : Option String := none
deriving DecidableEq, Repr

/-- `GraphState` from `app/schemas/graph.py`: the conversation state
threaded through the graph. -/
structure GraphState where
  messages : List Msg
  session_id : String
deriving DecidableEq, Repr

/-- The predicate of the list comprehension in `__process_messages`:
keep a message iff its role is assistant or user and its content is
truthy (non-empty). -/
def keep_in_view (m : Msg) : Bool :=
  (m.role == "assistant" || m.role == "user") && m.content != ""

/-- `LangGraphAgent.__process_messages`: the list comprehension over
the openai-style messages, keeping assistant/user messages with
non-empty content, in order. -/
def process_messages : List Msg → List Msg
  | [] => []
  | m :: rest =>
    if (m.role == "assistant" || m.role == "user") && m.content != "" then
      m :: process_messages rest
    else
      process_messages rest

/-- `LangGraphAgent.get_response` result view: the final graph state's
messages passed through `__process_messages`. -/
def get_response_view (stored : List Msg) : List Msg :=
  process_messages stored

/-- `LangGraphAgent.get_chat_history`: the checkpointed snapshot's
messages through `__process_messages`, or `[]` when there is no
snapshot (`state.values` empty). -/
def get_chat_history_view (snapshot : Option (List Msg)) : List Msg :=
  match snapshot with
  | some msgs => process_messages msgs
  | none => []

theorem process_messages_eq_filter (msgs : List Msg) :
    process_messages msgs = msgs.filter keep_in_view := by
  induction msgs with
  | nil => rfl
  | cons m rest ih =>
    simp only [process_messages, List.filter, keep_in_view]
    cases h : (m.role == "assistant" || m.role == "user") && m.content != "" <;>
      simp [h, ih]

/-- C1: for every list of stored messages, the result view produced by
`get_response` and `get_chat_history` contains exactly the user and
assistant messages with non-empty content, in their original stored
order (it is the order-preserving filter of the stored list), and
system and tool messages never appear in it. -/
theorem result_view_filters_user_assistant (msgs : List Msg) :
    process_messages msgs = msgs.filter keep_in_view
    ∧ (process_messages msgs).Sublist msgs
    ∧ (∀ m ∈ process_messages msgs,
        (m.role = "user" ∨ m.role = "assistant") ∧ m.content ≠ "")
    ∧ (∀ m ∈ msgs,
        (m.role = "user" ∨ m.role = "assistant") → m.content ≠ "" →
          m ∈ process_messages msgs)
    ∧ (∀ m ∈ process_messages msgs, m.role ≠ "system" ∧ m.role ≠ "tool")
    ∧ get_response_view msgs = process_messages msgs
    ∧ get_chat_history_view (some msgs) = process_messages msgs := by
  have hfilter := process_messages_eq_filter msgs
  have hkeep : ∀ m : Msg, keep_in_view m = true ↔
      (m.role = "assistant" ∨ m.role = "user") ∧ m.content ≠ "" := by
    intro m
    simp [keep_in_view]
  refine ⟨hfilter, ?_, ?_, ?_, ?_, rfl, rfl⟩
  · rw [hfilter]; exact List.filter_sublist msgs
  · intro m hm
    rw [hfilter, List.mem_filter] at hm
    rcases (hkeep m).mp hm.2 with ⟨hrole, hc⟩
    exact ⟨hrole.symm.imp id id |>.symm.imp id id |>.elim
      (fun h => Or.inr h) (fun h => Or.inl h), hc⟩
  · intro m hm hrole hc
    rw [hfilter, List.mem_filter]
    exact ⟨hm, (hkeep m).mpr ⟨hrole.elim (fun h => Or.inr h) (fun h => Or.inl h), hc⟩⟩
  · intro m hm
    rw [hfilter, List.mem_filter] at hm
    rcases (hkeep m).mp hm.2 with ⟨hrole, _⟩
    rcases hrole with h | h <;> rw [h] <;> exact ⟨by decide, by decide⟩

/-- Demo stored history: system prompt, user turn, assistant turn with
a pending tool call and empty content, tool result, final assistant
answer. -/
def demo_stored : List Msg :=
  [ { role := "system", content := "sys" },
    { role := "user", content := "hi" },
    { role := "assistant", content := "", tool_calls := [⟨"1", "search", "q"⟩] },
    { role := "tool", content := "result", tool_call_id := some "1" },
    { role := "assistant", content := "answer" } ]

/-- C1 witness: evaluating the view on a concrete stored history keeps
exactly the user turn and the non-empty assistant turn, in order. -/
theorem result_view_filters_user_assistant_witness :
    process_messages demo_stored
      = [ { role := "user", content := "hi" },
          { role := "assistant", content := "answer" } ]
    ∧ process_messages demo_stored = demo_stored.filter keep_in_view :=
  ⟨by decide, (result_view_filters_user_assistant demo_stored).1⟩

/-! ## The routing function and graph wiring (`_should_continue`, `create_graph`) -/

/-- The nodes reachable after a step of the compiled graph:
the two named nodes from `create_graph` plus `END`. -/
inductive GNode where
  | chat
  | tool_call
  | terminal
deriving DecidableEq, Repr

/-- `LangGraphAgent._should_continue`: inspect `state.messages[-1]`
(`none` models the IndexError on an empty list); return "end" when the
last message has no tool calls, "continue" otherwise. -/
def should_continue (state : GraphState) : Option String :=
  match state.messages.getLast? with
  | none => none
  | some last =>
      if last.tool_calls.isEmpty then some "end" else some "continue"

/-- The conditional-edge mapping registered in `create_graph`:
`{"continue": "tool_call", "end": END}`, applied to the routing
function's result (`none` models an unmapped route key). -/
def route_after_chat (state : GraphState) : Option GNode :=
  match should_continue state with
  | some r =>
      if r = "continue" then some GNode.tool_call
      else if r = "end" then some GNode.terminal
      else none
  | none => none

/-- `create_graph` adds the unconditional edge `tool_call -> chat`. -/
def route_after_tool : GNode := GNode.chat

/-- `create_graph` sets the entry point to `chat`. -/
def entry_point : GNode := GNode.chat

/-- C2: the executor's routing is a state machine over
chat/tool/terminal with entry point chat: after a chat step the next
node is `tool_call` iff the last message carries at least one tool
call and `END` otherwise, and after a tool step the next node is
always `chat`. -/
theorem routing_state_machine (state : GraphState) :
    entry_point = GNode.chat
    ∧ (∀ last, state.messages.getLast? = some last →
        (route_after_chat state = some GNode.tool_call ↔ last.tool_calls ≠ [])
        ∧ (route_after_chat state = some GNode.terminal ↔ last.tool_calls = []))
    ∧ route_after_tool = GNode.chat := by
  refine ⟨rfl, ?_, rfl⟩
  intro last hlast
  simp only [route_after_chat, should_continue, hlast]
  cases hcalls : last.tool_calls with
  | nil => simp
  | cons c rest => simp

/-- A concrete state whose last message requests a tool call. -/
def demo_tool_state : GraphState :=
  { messages :=
      [ { role := "user", content := "hi" },
        { role := "assistant", content := "", tool_calls := [⟨"1", "search", "q"⟩] } ],
    session_id := "s1" }

/-- C2 witness: on a concrete state whose last assistant message holds
one tool call, the router goes to the tool node, and the static edges
are as claimed. -/
theorem routing_state_machine_witness :
    route_after_chat demo_tool_state = some GNode.tool_call
    ∧ route_after_tool = GNode.chat := by
  have h := routing_state_machine demo_tool_state
  refine ⟨?_, h.2.2⟩
  have h2 := h.2.1
    { role := "assistant", content := "", tool_calls := [⟨"1", "search", "q"⟩] }
    (by decide)
  exact h2.1.mpr (by decide)

/-! ## The chat node retry/fallback loop (`LangGraphAgent._chat`) -/

/-- `Environment` from `app/core/config.py`. -/
inductive Environment where
  | development
  | staging
  | production
  | test
deriving DecidableEq, Repr

/-- Outcome of one provider call (`self.llm.ainvoke`): a generated
assistant message, or an `OpenAIError`. -/
inductive CallResult where
  | ok : Msg → CallResult
  | err : CallResult
deriving DecidableEq, Repr

/-- The hardcoded fallback model of `_chat`. -/
def fallback_model : String := "gpt-4o"

/-- The retry loop of `_chat`, one step per `attempt` of
`range(max_retries)`.  `outcome i` is the provider's behaviour on the
i-th call; the first trace component records the active model
identifier at each call actually issued; the second is the generated
message, `none` when the loop exhausts and the node raises (so no
assistant message is appended).  `fuel` counts the attempts left
(`max_retries - attempt`); the fallback switch fires exactly when the
failing attempt satisfies `attempt == max_retries - 2` over the
integers, and only in the production environment, mirroring the guard
`settings.ENVIRONMENT == Environment.PRODUCTION and attempt == max_retries - 2`. -/
def chat_attempts (env : Environment) (max_retries : Nat)
    (outcome : Nat → CallResult) :
    Nat → Nat → String → List String × Option Msg
  | 0, _, _ => ([], none)
  | fuel + 1, attempt, model =>
    match outcome attempt with
    | CallResult.ok m => ([model], some m)
    | CallResult.err =>
      let next_model :=
        if env = Environment.production ∧ (attempt : Int) = (max_retries : Int) - 2
        then fallback_model else model
      let r := chat_attempts env max_retries outcome fuel (attempt + 1) next_model
      (model :: r.1, r.2)

/-- `_chat`: run the retry loop from attempt 0 with the configured
primary model and `max_retries` attempts available. -/
def chat (env : Environment) (max_retries : Nat)
    (outcome : Nat → CallResult) (primary : String) :
    List String × Option Msg :=
  chat_attempts env max_retries outcome max_retries 0 primary

/-- With every call failing, the loop issues one call per unit of fuel
and produces no message. -/
theorem chat_attempts_all_fail_shape (env : Environment) (mr : Nat)
    (outcome : Nat → CallResult) (hfail : ∀ i, outcome i = CallResult.err) :
    ∀ fuel attempt model,
      (chat_attempts env mr outcome fuel attempt model).1.length = fuel
      ∧ (chat_attempts env mr outcome fuel attempt model).2 = none := by
  intro fuel
  induction fuel with
  | zero => intro attempt model; exact ⟨rfl, rfl⟩
  | succ f ih =>
    intro attempt model
    simp only [chat_attempts, hfail attempt]
    exact ⟨by simp [(ih (attempt + 1) _).1], (ih (attempt + 1) _).2⟩

/-- With every call failing outside production, the model identifier
is never switched: every call uses the starting model. -/
theorem chat_attempts_all_fail_nonprod (env : Environment) (mr : Nat)
    (outcome : Nat → CallResult) (hfail : ∀ i, outcome i = CallResult.err)
    (henv : env ≠ Environment.production) :
    ∀ fuel attempt model,
      (chat_attempts env mr outcome fuel attempt model).1
        = List.replicate fuel model := by
  intro fuel
  induction fuel with
  | zero => intro attempt model; rfl
  | succ f ih =>
    intro attempt model
    simp only [chat_attempts, hfail attempt]
    have : (if env = Environment.production ∧ (attempt : Int) = (mr : Int) - 2
        then fallback_model else model) = model := by
      rw [if_neg]; intro hc; exact henv hc.1
    rw [this, ih (attempt + 1) model, List.replicate_succ]

/-- With every call failing in production and `attempt + fuel = mr`,
`2 ≤ fuel`: the loop issues `fuel - 1` calls on the current model and
the last call on the fallback model. -/
theorem chat_attempts_all_fail_prod (mr : Nat)
    (outcome : Nat → CallResult) (hfail : ∀ i, outcome i = CallResult.err) :
    ∀ fuel attempt model, attempt + fuel = mr → 2 ≤ fuel →
      (chat_attempts Environment.production mr outcome fuel attempt model).1
        = List.replicate (fuel - 1) model ++ [fallback_model] := by
  intro fuel
  induction fuel with
  | zero => intro attempt model _ h2; omega
  | succ f ih =>
    intro attempt model hsum h2
    simp only [chat_attempts, hfail attempt, true_and]
    have hidx : f + 1 - 1 = f := by omega
    rw [hidx]
    rcases Nat.lt_or_ge f 2 with hf | hf
    · have hf1 : f = 1 := by omega
      subst hf1
      have hattempt : (attempt : Int) = (mr : Int) - 2 := by omega
      rw [if_pos hattempt]
      simp [chat_attempts, hfail]
    · have hne : ¬ ((attempt : Int) = (mr : Int) - 2) := by omega
      rw [if_neg hne, ih (attempt + 1) model (by omega) hf]
      have hrep : model :: List.replicate (f - 1) model
          = List.replicate f model := by
        cases f with
        | zero => omega
        | succ f0 => simp [List.replicate_succ]
      rw [← List.cons_append, hrep]

/-- C3 (amended): when every provider call fails and at least two
attempts are configured, the model is called exactly `max_retries`
times and the node raises without producing an assistant message; in
the production environment the active model is switched to the
fallback after the second-to-last failure, so the last call uses the
fallback while all earlier calls use the primary model; in every other
environment all calls use the primary model and no switch occurs. -/
theorem chat_retry_fallback (env : Environment) (mr : Nat)
    (outcome : Nat → CallResult) (primary : String)
    (hfail : ∀ i, outcome i = CallResult.err) (h2 : 2 ≤ mr) :
    (chat env mr outcome primary).1.length = mr
    ∧ (chat env mr outcome primary).2 = none
    ∧ (env = Environment.production →
        (chat env mr outcome primary).1
          = List.replicate (mr - 1) primary ++ [fallback_model])
    ∧ (env ≠ Environment.production →
        (chat env mr outcome primary).1 = List.replicate mr primary) := by
  refine ⟨(chat_attempts_all_fail_shape env mr outcome hfail mr 0 primary).1,
    (chat_attempts_all_fail_shape env mr outcome hfail mr 0 primary).2, ?_, ?_⟩
  · intro henv
    subst henv
    exact chat_attempts_all_fail_prod mr outcome hfail mr 0 primary (by omega) h2
  · intro henv
    exact chat_attempts_all_fail_nonprod env mr outcome hfail henv mr 0 primary

/-- A provider that fails on every call. -/
def always_err : Nat → CallResult := fun _ => CallResult.err

/-- C3 counterexample: with the loop as written, in the development
environment three failing attempts never switch to the fallback model
-- all three calls use the primary identifier and the fallback never
appears in the call trace -- refuting the claim that the switch
happens after the second-to-last failure regardless of environment. -/
theorem chat_no_fallback_outside_production :
    (chat Environment.development 3 always_err "gpt-4o-mini").1
      = ["gpt-4o-mini", "gpt-4o-mini", "gpt-4o-mini"]
    ∧ fallback_model ∉ (chat Environment.development 3 always_err "gpt-4o-mini").1
    ∧ (chat Environment.development 3 always_err "gpt-4o-mini").2 = none := by
  refine ⟨by decide, ?_, by decide⟩
  intro hmem
  have h : (chat Environment.development 3 always_err "gpt-4o-mini").1
      = ["gpt-4o-mini", "gpt-4o-mini", "gpt-4o-mini"] := by decide
  rw [h] at hmem
  simp only [List.mem_cons, List.not_mem_nil, or_false] at hmem
  rcases hmem with h1 | h1 | h1 <;> exact absurd h1 (by decide)

/-- C3 witness: the amended theorem evaluated in production with three
failing attempts: three calls, the last on the fallback model, no
message produced. -/
theorem chat_retry_fallback_witness :
    (chat Environment.production 3 always_err "gpt-4o-mini").1.length = 3
    ∧ (chat Environment.production 3 always_err "gpt-4o-mini").2 = none
    ∧ (chat Environment.production 3 always_err "gpt-4o-mini").1
        = ["gpt-4o-mini", "gpt-4o-mini", "gpt-4o"] := by
  have h := chat_retry_fallback Environment.production 3 always_err "gpt-4o-mini"
    (fun _ => rfl) (by omega)
  refine ⟨h.1, h.2.1, ?_⟩
  rw [h.2.2.1 rfl]
  decide

/-! ## The tool node (`LangGraphAgent._tool_call`) -/

/-- A registered tool: a name and its invocation on (opaque)
arguments. -/
structure ToolDef where
  name : String
  run : String → String

/-- `self.tools_by_name`: dictionary lookup by tool name
(`none` models the `KeyError`). -/
def lookup_tool (registry : List ToolDef) (n : String) : Option ToolDef :=
  registry.find? (fun t => t.name == n)

/-- The `ToolMessage(content=..., name=..., tool_call_id=...)`
constructed for one resolved call. -/
def tool_message (content n id : String) : Msg :=
  { role := "tool", content := content, name := some n, tool_call_id := some id }

/-- The loop body of `_tool_call`: resolve the calls in order,
appending one `ToolMessage` per call; an unknown name raises
(`none`), in which case the locally accumulated outputs are discarded
and nothing is returned to the graph. -/
def run_tool_calls (registry : List ToolDef) : List ToolCall → Option (List Msg)
  | [] => some []
  | c :: rest =>
    match lookup_tool registry c.name with
    | none => none
    | some t =>
      match run_tool_calls registry rest with
      | none => none
      | some outs => some (tool_message (t.run c.args) c.name c.id :: outs)

/-- `LangGraphAgent._tool_call`: read `state.messages[-1].tool_calls`
(`none` models the IndexError on an empty history) and resolve them;
the result is the `{"messages": outputs}` update, i.e. the list of
messages appended to the state, or `none` when the node raises and
appends nothing. -/
def tool_call (registry : List ToolDef) (state : GraphState) : Option (List Msg) :=
  match state.messages.getLast? with
  | none => none
  | some last => run_tool_calls registry last.tool_calls

/-- C4: when the last message's tool calls all name registered tools,
the tool node appends exactly one tool-result message per call, in
the order the calls were issued, each carrying the `tool_call_id` and
name of the call it resolves. -/
theorem tool_node_resolves_calls_in_order (registry : List ToolDef)
    (state : GraphState) (last : Msg)
    (hlast : state.messages.getLast? = some last)
    (hreg : ∀ c ∈ last.tool_calls, (lookup_tool registry c.name).isSome = true) :
    (tool_call registry state).isSome = true
    ∧ ((tool_call registry state).getD []).length = last.tool_calls.length
    ∧ ((tool_call registry state).getD []).map (fun m => m.tool_call_id)
        = last.tool_calls.map (fun c => some c.id)
    ∧ ((tool_call registry state).getD []).map (fun m => m.name)
        = last.tool_calls.map (fun c => some c.name)
    ∧ (∀ m ∈ (tool_call registry state).getD [], m.role = "tool") := by
  have main : ∀ calls : List ToolCall,
      (∀ c ∈ calls, (lookup_tool registry c.name).isSome = true) →
      (run_tool_calls registry calls).isSome = true
      ∧ ((run_tool_calls registry calls).getD []).length = calls.length
      ∧ ((run_tool_calls registry calls).getD []).map (fun m => m.tool_call_id)
          = calls.map (fun c => some c.id)
      ∧ ((run_tool_calls registry calls).getD []).map (fun m => m.name)
          = calls.map (fun c => some c.name)
      ∧ (∀ m ∈ (run_tool_calls registry calls).getD [], m.role = "tool") := by
    intro calls
    induction calls with
    | nil => intro _; exact ⟨rfl, rfl, rfl, rfl, by intro m hm; cases hm⟩
    | cons c rest ih =>
      intro hall
      obtain ⟨t, ht⟩ := Option.isSome_iff_exists.mp (hall c (List.mem_cons_self c rest))
      have hrest := ih (fun c' hc' => hall c' (List.mem_cons_of_mem c hc'))
      obtain ⟨outs, houts⟩ := Option.isSome_iff_exists.mp hrest.1
      simp only [run_tool_calls, ht, houts]
      simp only [houts, Option.getD_some] at hrest
      refine ⟨rfl, ?_, ?_, ?_, ?_⟩
      · simp [hrest.2.1]
      · simp [tool_message, hrest.2.2.1]
      · simp [tool_message, hrest.2.2.2.1]
      · intro m hm
        rcases List.mem_cons.mp hm with hm | hm
        · rw [hm]; rfl
        · exact hrest.2.2.2.2 m hm
  simpa only [tool_call, hlast] using main last.tool_calls hreg

/-- A concrete two-tool registry. -/
def demo_registry : List ToolDef :=
  [ { name := "search", run := fun q => String.append "found:" q },
    { name := "calc", run := fun e => String.append "value:" e } ]

/-- The spec's example turn: two calls, ids 1 and 2, naming search and
calc. -/
def demo_calls_state : GraphState :=
  { messages :=
      [ { role := "user", content := "hi" },
        { role := "assistant", content := "",
          tool_calls := [⟨"1", "search", "q"⟩, ⟨"2", "calc", "2+2"⟩] } ],
    session_id := "s1" }

/-- C4 witness: on the spec's example turn the node appends exactly
two tool messages carrying ids 1 and 2, in that order. -/
theorem tool_node_resolves_calls_in_order_witness :
    tool_call demo_registry demo_calls_state
      = some [ tool_message "found:q" "search" "1",
               tool_message "value:2+2" "calc" "2" ]
    ∧ ((tool_call demo_registry demo_calls_state).getD []).map
        (fun m => m.tool_call_id) = [some "1", some "2"] := by
  have h := tool_node_resolves_calls_in_order demo_registry demo_calls_state
    { role := "assistant", content := "",
      tool_calls := [⟨"1", "search", "q"⟩, ⟨"2", "calc", "2+2"⟩] }
    (by decide) (by decide)
  exact ⟨by decide, h.2.2.1⟩

/-- C5: when at least one tool call names an unregistered tool, the
tool node raises and returns no update at all: no tool-result message
is appended, including none for the calls preceding the unknown one. -/
theorem tool_node_unknown_tool_fatal (registry : List ToolDef)
    (state : GraphState) (last : Msg)
    (hlast : state.messages.getLast? = some last)
    (hbad : ∃ c ∈ last.tool_calls, lookup_tool registry c.name = none) :
    tool_call registry state = none := by
  have main : ∀ calls : List ToolCall,
      (∃ c ∈ calls, lookup_tool registry c.name = none) →
      run_tool_calls registry calls = none := by
    intro calls
    induction calls with
    | nil => intro h; obtain ⟨c, hc, _⟩ := h; cases hc
    | cons c rest ih =>
      intro h
      obtain ⟨c', hc', hnone⟩ := h
      rcases List.mem_cons.mp hc' with hc0 | hc0
      · subst hc0
        simp only [run_tool_calls, hnone]
      · simp only [run_tool_calls]
        cases hlook : lookup_tool registry c.name with
        | none => rfl
        | some t => rw [ih ⟨c', hc0, hnone⟩]
  simp only [tool_call, hlast]
  exact main last.tool_calls hbad

/-- A turn whose second call names an unregistered tool, with a
registered call before it. -/
def demo_bad_state : GraphState :=
  { messages :=
      [ { role := "user", content := "hi" },
        { role := "assistant", content := "",
          tool_calls := [⟨"1", "search", "q"⟩, ⟨"2", "unknown", "x"⟩] } ],
    session_id := "s1" }

/-- C5 witness: with a registered call followed by an unknown one, the
node appends nothing -- not even the first call's result. -/
theorem tool_node_unknown_tool_fatal_witness :
    tool_call demo_registry demo_bad_state = none :=
  tool_node_unknown_tool_fatal demo_registry demo_bad_state
    { role := "assistant", content := "",
      tool_calls := [⟨"1", "search", "q"⟩, ⟨"2", "unknown", "x"⟩] }
    (by decide) ⟨⟨"2", "unknown", "x"⟩, by decide, rfl⟩

/-! ## Streaming (`get_stream_response`, `event_generator`) -/

/-- One streamed token from `graph.astream(..., stream_mode="messages")`:
the source reads its `content` attribute. -/
structure StreamToken where
  content : String
deriving DecidableEq, Repr

/-- `LangGraphAgent.get_stream_response`: yield `token.content` for
each streamed token, in order. -/
def get_stream_response (tokens : List StreamToken) : List String :=
  tokens.map (fun t => t.content)

/-- Modelled from the spec: the graph's checkpointing of a completed
streaming turn, which is library behaviour (langgraph) not present in
the source tree -- "The full concatenated output is still checkpointed
as one assistant message when the stream completes."  The checkpointed
assistant message's content is the concatenation of the turn's
streamed fragments. -/
def checkpointed_assistant (tokens : List StreamToken) : Msg :=
  { role := "assistant",
    content := String.join (tokens.map (fun t => t.content)) }

/-- One SSE event body built by `event_generator`:
`StreamResponse(content=..., done=...)` from `app/schemas/chat.py`. -/
structure StreamResponse where
  content : String
  done : Bool
deriving DecidableEq, Repr

/-- How the underlying generation behaves, as observed by
`event_generator`'s `try` block: either the stream of fragments runs
to completion, or it fails after emitting a prefix of fragments,
raising an exception whose text is `err`. -/
inductive StreamOutcome where
  | ok : List String → StreamOutcome
  | failed : List String → String → StreamOutcome
deriving DecidableEq, Repr

/-- `event_generator` from `app/api/v1/chatbot.py`, step by step: each
fragment received from `get_stream_response` is emitted as
`{content: fragment, done: false}`; after the loop completes normally
the `{content: "", done: true}` sentinel is emitted; if the generation
raises, the `except` branch emits `{content: str(e), done: true}`
instead, swallowing the exception rather than rethrowing it. -/
def ok_events : List String → List StreamResponse
  | [] => [{ content := "", done := true }]
  | c :: rest => { content := c, done := false } :: ok_events rest

def failed_events (e : String) : List String → List StreamResponse
  | [] => [{ content := e, done := true }]
  | c :: rest => { content := c, done := false } :: failed_events e rest

def event_generator : StreamOutcome → List StreamResponse
  | StreamOutcome.ok cs => ok_events cs
  | StreamOutcome.failed cs e => failed_events e cs

/-- The terminal event each outcome produces. -/
def terminal_event : StreamOutcome → StreamResponse
  | StreamOutcome.ok _ => { content := "", done := true }
  | StreamOutcome.failed _ e => { content := e, done := true }

theorem ok_events_shape (cs : List String) :
    ok_events cs
      = cs.map (fun c => { content := c, done := false })
        ++ [{ content := "", done := true }] := by
  induction cs with
  | nil => rfl
  | cons c rest ih => simp only [ok_events, ih, List.map_cons, List.cons_append]

theorem failed_events_shape (e : String) (cs : List String) :
    failed_events e cs
      = cs.map (fun c => { content := c, done := false })
        ++ [{ content := e, done := true }] := by
  induction cs with
  | nil => rfl
  | cons c rest ih => simp only [failed_events, ih, List.map_cons, List.cons_append]

theorem event_generator_shape (o : StreamOutcome) :
    event_generator o
      = (match o with
          | StreamOutcome.ok cs => cs
          | StreamOutcome.failed cs _ => cs).map
            (fun c => { content := c, done := false })
        ++ [terminal_event o] := by
  cases o with
  | ok cs => exact ok_events_shape cs
  | failed cs e => exact failed_events_shape e cs

/-- C7: every emitted event sequence is zero or more `done=false`
events followed by exactly one `done=true` terminal event; on normal
completion the terminal event's content is empty, and on error it
carries the error text (the fault is not rethrown -- the event list is
the whole observable behaviour). -/
theorem stream_events_single_terminal (o : StreamOutcome) :
    (∀ e ∈ (event_generator o).dropLast, e.done = false)
    ∧ (event_generator o).getLast? = some (terminal_event o)
    ∧ ((event_generator o).filter (fun e => e.done)).length = 1
    ∧ (∀ cs, o = StreamOutcome.ok cs → (terminal_event o).content = "")
    ∧ (∀ cs err, o = StreamOutcome.failed cs err →
        (terminal_event o).content = err)
    ∧ (terminal_event o).done = true := by
  have hshape := event_generator_shape o
  have hfrag : ∀ cs : List String,
      ∀ e ∈ cs.map (fun c => ({ content := c, done := false } : StreamResponse)),
        e.done = false := by
    intro cs e he
    obtain ⟨c, _, hc⟩ := List.mem_map.mp he
    rw [← hc]
  have hterm : (terminal_event o).done = true := by
    cases o <;> rfl
  refine ⟨?_, ?_, ?_, ?_, ?_, hterm⟩
  · intro e he
    rw [hshape, List.dropLast_concat] at he
    cases o with
    | ok cs => exact hfrag cs e he
    | failed cs err => exact hfrag cs e he
  · rw [hshape]
    simp
  · rw [hshape, List.filter_append]
    have h1 : List.filter (fun e => e.done) [terminal_event o]
        = [terminal_event o] := by
      simp [List.filter, hterm]
    have h2 : ∀ cs : List String,
        (cs.map (fun c => ({ content := c, done := false } : StreamResponse))).filter
          (fun e => e.done) = [] := by
      intro cs
      rw [List.filter_eq_nil_iff]
      intro e he
      rw [hfrag _ e he]
      decide
    cases o with
    | ok cs => rw [h1, h2 cs]; rfl
    | failed cs err => rw [h1, h2 cs]; rfl
  · intro cs ho; rw [ho]; rfl
  · intro cs err ho; rw [ho]; rfl

/-- C7 witness: a two-fragment normal stream and a failing stream that
broke after one fragment, evaluated concretely: sentinel after the
fragments in the first, error terminal in the second, exactly one
`done=true` event in each. -/
theorem stream_events_single_terminal_witness :
    event_generator (StreamOutcome.ok ["he", "llo"])
      = [ { content := "he", done := false },
          { content := "llo", done := false },
          { content := "", done := true } ]
    ∧ event_generator (StreamOutcome.failed ["he"] "boom")
      = [ { content := "he", done := false },
          { content := "boom", done := true } ]
    ∧ ((event_generator (StreamOutcome.ok ["he", "llo"])).filter
        (fun e => e.done)).length = 1 :=
  ⟨by decide, by decide,
    (stream_events_single_terminal (StreamOutcome.ok ["he", "llo"])).2.2.1⟩

/-- C6: for a streaming run that completes, concatenating the content
of the non-sentinel events equals the content of the checkpointed
assistant message, and a subsequent history read reports that
assistant message -- with exactly that content -- as the last element
of its filtered view (provided the turn produced non-empty output, the
condition under which the view keeps an assistant message at all). -/
theorem stream_matches_history (tokens : List StreamToken) (stored : List Msg) :
    String.join
      (((event_generator (StreamOutcome.ok (get_stream_response tokens))).filter
          (fun e => !e.done)).map (fun e => e.content))
      = (checkpointed_assistant tokens).content
    ∧ ((checkpointed_assistant tokens).content ≠ "" →
        process_messages (stored ++ [checkpointed_assistant tokens])
          = process_messages stored ++ [checkpointed_assistant tokens]) := by
  constructor
  · rw [event_generator_shape, List.filter_append]
    have h1 : List.filter (fun e => !e.done) [terminal_event (StreamOutcome.ok (get_stream_response tokens))]
        = [] := by
      simp [List.filter, terminal_event]
    have h2 : (List.map (fun c => ({ content := c, done := false } : StreamResponse))
          (get_stream_response tokens)).filter (fun e => !e.done)
        = List.map (fun c => ({ content := c, done := false } : StreamResponse))
            (get_stream_response tokens) := by
      rw [List.filter_eq_self]
      intro e he
      obtain ⟨c, _, hc⟩ := List.mem_map.mp he
      rw [← hc]
      rfl
    rw [h1, h2, List.append_nil, List.map_map]
    simp only [get_stream_response, checkpointed_assistant, List.map_map]
    have hfun : (((fun e => e.content)
            ∘ fun c => ({ content := c, done := false } : StreamResponse))
          ∘ fun t : StreamToken => t.content)
        = fun t : StreamToken => t.content := by
      funext t; rfl
    rw [hfun]
  · intro hne
    rw [process_messages_eq_filter, process_messages_eq_filter,
      List.filter_append]
    have hkeep : List.filter keep_in_view [checkpointed_assistant tokens]
        = [checkpointed_assistant tokens] := by
      have : keep_in_view (checkpointed_assistant tokens) = true := by
        simp [keep_in_view, checkpointed_assistant]
        simpa [checkpointed_assistant] using hne
      simp [List.filter, this]
    rw [hkeep]

/-- C6 witness: a concrete three-token stream: the non-sentinel event
contents concatenate to "hello!", the checkpointed assistant message
carries exactly that content, and the history view of a stored prefix
plus that message ends with it. -/
theorem stream_matches_history_witness :
    String.join
      (((event_generator (StreamOutcome.ok (get_stream_response
            [⟨"hel"⟩, ⟨"lo"⟩, ⟨"!"⟩]))).filter
          (fun e => !e.done)).map (fun e => e.content)) = "hello!"
    ∧ (checkpointed_assistant [⟨"hel"⟩, ⟨"lo"⟩, ⟨"!"⟩]).content = "hello!"
    ∧ process_messages
        ([{ role := "user", content := "hi" }]
          ++ [checkpointed_assistant [⟨"hel"⟩, ⟨"lo"⟩, ⟨"!"⟩]])
        = [{ role := "user", content := "hi" },
           { role := "assistant", content := "hello!" }] := by
  have h := stream_matches_history [⟨"hel"⟩, ⟨"lo"⟩, ⟨"!"⟩]
    [{ role := "user", content := "hi" }]
  refine ⟨by decide, by decide, ?_⟩
  rw [h.2 (by decide)]
  decide

/-! ## Message preparation (`app/utils/graph.py: prepare_messages`) -/

/-- Token cost of a message list under an abstract per-message token
counter (the source delegates counting to the model client). -/
def sum_tokens (cnt : Msg → Nat) (msgs : List Msg) : Nat :=
  (msgs.map cnt).sum

/-- Modelled from the spec: langchain's `trim_messages(strategy="last",
max_tokens=..., start_on="human", include_system=False,
allow_partial=False)` is library code not present in the source tree.
Per the spec's words -- "the tail trimmed to fit a token budget --
oldest-first eviction, ... never splitting a message" -- it keeps the
longest suffix of whole messages whose total token count fits the
budget: drop the oldest message while the remaining total exceeds the
budget. -/
def evict_oldest (cnt : Msg → Nat) (budget : Nat) : List Msg → List Msg
  | [] => []
  | m :: rest =>
    if sum_tokens cnt (m :: rest) ≤ budget then m :: rest
    else evict_oldest cnt budget rest

/-- Modelled from the spec: the `start_on="human"` behaviour of
langchain's `trim_messages` -- messages before the first human (user)
message in the kept window are dropped, so the window begins with a
user turn. -/
def start_on_human (msgs : List Msg) : List Msg :=
  msgs.dropWhile (fun m => m.role != "user")

/-- Modelled from the spec: `trim_messages` as called by
`prepare_messages` -- budget trimming (oldest-first, whole messages,
`include_system=False` gives the leading system message no special
treatment) followed by the `start_on="human"` adjustment. -/
def trim_messages (cnt : Msg → Nat) (budget : Nat) (msgs : List Msg) : List Msg :=
  start_on_human (evict_oldest cnt budget msgs)

/-- The system-prompt message `Message(role="system", content=system_prompt)`
prepended by `prepare_messages`. -/
def system_message (system_prompt : String) : Msg :=
  { role := "system", content := system_prompt }

/-- `prepare_messages`: trim the history to the token budget and
prepend the injected system prompt. -/
def prepare_messages (cnt : Msg → Nat) (budget : Nat)
    (system_prompt : String) (msgs : List Msg) : List Msg :=
  system_message system_prompt :: trim_messages cnt budget msgs

theorem evict_oldest_suffix (cnt : Msg → Nat) (budget : Nat) (msgs : List Msg) :
    (evict_oldest cnt budget msgs).IsSuffix msgs := by
  induction msgs with
  | nil => exact List.nil_suffix
  | cons m rest ih =>
    simp only [evict_oldest]
    split
    · exact List.suffix_refl (m :: rest)
    · exact ih.trans (List.suffix_cons m rest)

theorem evict_oldest_fits (cnt : Msg → Nat) (budget : Nat) (msgs : List Msg) :
    sum_tokens cnt (evict_oldest cnt budget msgs) ≤ budget := by
  induction msgs with
  | nil => simp [evict_oldest, sum_tokens]
  | cons m rest ih =>
    simp only [evict_oldest]
    split
    · assumption
    · exact ih

theorem sum_tokens_suffix_le (cnt : Msg → Nat) {l1 l2 : List Msg}
    (h : l1.IsSuffix l2) : sum_tokens cnt l1 ≤ sum_tokens cnt l2 := by
  obtain ⟨pre, hpre⟩ := h
  rw [← hpre]
  simp [sum_tokens]

theorem start_on_human_suffix (msgs : List Msg) :
    (start_on_human msgs).IsSuffix msgs :=
  List.dropWhile_suffix _

theorem trim_messages_suffix (cnt : Msg → Nat) (budget : Nat) (msgs : List Msg) :
    (trim_messages cnt budget msgs).IsSuffix msgs :=
  (start_on_human_suffix _).trans (evict_oldest_suffix cnt budget msgs)

/-- C8: the message list passed to the model is the injected system
prompt followed by a suffix of the input history (oldest messages
evicted first), whose total token count fits the budget; every
forwarded history message is an input message kept whole, and the
injected system prompt is always present at the head. -/
theorem prepare_messages_budget (cnt : Msg → Nat) (budget : Nat)
    (system_prompt : String) (msgs : List Msg) :
    (prepare_messages cnt budget system_prompt msgs).head?
      = some (system_message system_prompt)
    ∧ (prepare_messages cnt budget system_prompt msgs).tail.IsSuffix msgs
    ∧ sum_tokens cnt (prepare_messages cnt budget system_prompt msgs).tail ≤ budget
    ∧ ∀ m ∈ (prepare_messages cnt budget system_prompt msgs).tail, m ∈ msgs := by
  have htail : (prepare_messages cnt budget system_prompt msgs).tail
      = trim_messages cnt budget msgs := rfl
  have hsuffix : (trim_messages cnt budget msgs).IsSuffix msgs :=
    trim_messages_suffix cnt budget msgs
  refine ⟨rfl, ?_, ?_, ?_⟩
  · rw [htail]; exact hsuffix
  · rw [htail]
    exact le_trans
      (sum_tokens_suffix_le cnt (start_on_human_suffix (evict_oldest cnt budget msgs)))
      (evict_oldest_fits cnt budget msgs)
  · rw [htail]
    intro m hm
    exact hsuffix.subset hm

/-- A unit per-message token counter for concrete evaluation. -/
def unit_cnt : Msg → Nat := fun _ => 1

/-- A four-message history for concrete evaluation: with a budget of
two messages, the two oldest are evicted. -/
def demo_history : List Msg :=
  [ { role := "user", content := "old question" },
    { role := "assistant", content := "old answer" },
    { role := "user", content := "new question" },
    { role := "assistant", content := "new answer" } ]

/-- C8 witness: with a budget of 2 under the unit counter, the two
oldest messages are evicted and the system prompt heads the result. -/
theorem prepare_messages_budget_witness :
    prepare_messages unit_cnt 2 "SP" demo_history
      = [ system_message "SP",
          { role := "user", content := "new question" },
          { role := "assistant", content := "new answer" } ]
    ∧ sum_tokens unit_cnt (prepare_messages unit_cnt 2 "SP" demo_history).tail ≤ 2 :=
  ⟨by decide, (prepare_messages_budget unit_cnt 2 "SP" demo_history).2.2.1⟩

/-- C10 (amended): the first element of `prepare_messages` is always
the injected system-prompt message, the remaining elements are a
contiguous suffix of the input, and when that suffix is non-empty its
first message is a user message (leading non-user messages of the
kept window are dropped).  Input system messages positioned after the
first kept user message are forwarded unchanged. -/
theorem prepare_messages_starts_on_user (cnt : Msg → Nat) (budget : Nat)
    (system_prompt : String) (msgs : List Msg) :
    (prepare_messages cnt budget system_prompt msgs).head?
      = some (system_message system_prompt)
    ∧ (prepare_messages cnt budget system_prompt msgs).tail.IsSuffix msgs
    ∧ ∀ m, (prepare_messages cnt budget system_prompt msgs).tail.head? = some m →
        m.role = "user" := by
  refine ⟨rfl, trim_messages_suffix cnt budget msgs, ?_⟩
  intro m hm
  have htail : (prepare_messages cnt budget system_prompt msgs).tail
      = (evict_oldest cnt budget msgs).dropWhile (fun m => m.role != "user") := rfl
  rw [htail] at hm
  have := List.head?_dropWhile_not (fun m => m.role != "user")
    (evict_oldest cnt budget msgs)
  cases hdrop : ((evict_oldest cnt budget msgs).dropWhile
      (fun m => m.role != "user")).head? with
  | none => rw [hdrop] at hm; cases hm
  | some m' =>
    rw [hdrop] at hm
    injection hm with hm'
    subst hm'
    rw [hdrop] at this
    simpa using this

/-- C10 counterexample: system messages present in the input are not
always excluded from the forwarded list -- a system message sitting
after a user message inside the kept window is forwarded to the model
verbatim, refuting the claim's "system messages present in the input
are never forwarded" part. -/
theorem prepare_messages_forwards_interior_system :
    prepare_messages unit_cnt 10 "SP"
        [ { role := "user", content := "hi" },
          { role := "system", content := "sneaky" } ]
      = [ system_message "SP",
          { role := "user", content := "hi" },
          { role := "system", content := "sneaky" } ]
    ∧ ({ role := "system", content := "sneaky" } : Msg)
        ∈ prepare_messages unit_cnt 10 "SP"
            [ { role := "user", content := "hi" },
              { role := "system", content := "sneaky" } ] := by
  refine ⟨by decide, ?_⟩
  have h : prepare_messages unit_cnt 10 "SP"
      [ { role := "user", content := "hi" },
        { role := "system", content := "sneaky" } ]
      = [ system_message "SP",
          { role := "user", content := "hi" },
          { role := "system", content := "sneaky" } ] := by decide
  rw [h]
  simp

/-- C10 witness: with an assistant message oldest in the window, the
kept suffix begins at the first user message; the head of the result
is the system prompt and the suffix starts on a user turn. -/
theorem prepare_messages_starts_on_user_witness :
    prepare_messages unit_cnt 10 "SP"
        [ { role := "assistant", content := "stale" },
          { role := "user", content := "q" },
          { role := "assistant", content := "a" } ]
      = [ system_message "SP",
          { role := "user", content := "q" },
          { role := "assistant", content := "a" } ]
    ∧ ∀ m, (prepare_messages unit_cnt 10 "SP"
        [ { role := "assistant", content := "stale" },
          { role := "user", content := "q" },
          { role := "assistant", content := "a" } ]).tail.head? = some m →
        m.role = "user" :=
  ⟨by decide,
    (prepare_messages_starts_on_user unit_cnt 10 "SP"
      [ { role := "assistant", content := "stale" },
        { role := "user", content := "q" },
        { role := "assistant", content := "a" } ]).2.2⟩

/-! ## Session-id validation (`app/schemas/graph.py: validate_session_id`)

The validator first tries Python's `uuid.UUID(v)`, whose constructor
normalises its argument before checking it:
`hex.replace("urn:", "").replace("uuid:", "").strip("\x7b\x7d").replace("-", "")`
must be 32 hexadecimal digits.  Only if that raises does the validator
fall back to the regex `^[a-zA-Z0-9_\-]+$` (Python `re.match`, whose
`$` also matches just before a single trailing newline). -/

/-- Left brace and right brace, the characters stripped from both ends
by `strip` in `uuid.UUID`. -/
def brace_chars : List Char := [Char.ofNat 123, Char.ofNat 125]

/-- Python `s.replace(pat, "")` on character lists: delete the
leftmost occurrence of `pat` and continue scanning after it.  `fuel`
(instantiated with the list length) makes the recursion structural;
each step consumes at least one character, so the fuel never runs out
on the intended calls. -/
def remove_occurrences (pat : List Char) : Nat → List Char → List Char
  | 0, s => s
  | _ + 1, [] => []
  | fuel + 1, c :: rest =>
    if pat.isPrefixOf (c :: rest) && !pat.isEmpty then
      remove_occurrences pat fuel ((c :: rest).drop pat.length)
    else
      c :: remove_occurrences pat fuel rest

/-- `s.replace(pat, "")`. -/
def py_replace_delete (pat : String) (s : List Char) : List Char :=
  remove_occurrences pat.toList s.length s

/-- Python `s.strip("\x7b\x7d")`: remove braces from both ends. -/
def py_strip_braces (s : List Char) : List Char :=
  ((s.dropWhile (fun c => c ∈ brace_chars)).reverse.dropWhile
    (fun c => c ∈ brace_chars)).reverse

/-- A hexadecimal digit of `int(s, 16)`'s digit class:
`0-9`, `a-f`, `A-F`. -/
def is_hex_digit (c : Char) : Bool :=
  c.isDigit || (Char.ofNat 97 ≤ c && c ≤ Char.ofNat 102)
    || (Char.ofNat 65 ≤ c && c ≤ Char.ofNat 70)

/-- The ASCII whitespace characters Python's `int` parser skips
before and after the number: tab, LF, VT, FF, CR and space (codes
9-13 and 32).  This is narrower than `str.strip()`'s notion: codes
28-31 are not skipped by `int`. -/
def is_py_intspace (c : Char) : Bool :=
  c.toNat == 9 || c.toNat == 10 || c.toNat == 11 || c.toNat == 12
    || c.toNat == 13 || c.toNat == 32

def plus_char : Char := Char.ofNat 43

def hyphen_char : Char := Char.ofNat 45

def underscore_char : Char := Char.ofNat 95

def zero_char : Char := Char.ofNat 48

def lower_x_char : Char := Char.ofNat 120

def upper_x_char : Char := Char.ofNat 88

/-- The tail of `int`'s digit group after its first digit: hex digits
with single underscores allowed only between digits (`needDigit`
records that the previous character was an underscore, so a digit
must follow). -/
def hex_tail : Bool → List Char → Bool
  | needDigit, [] => !needDigit
  | needDigit, c :: rest =>
    if is_hex_digit c then hex_tail false rest
    else if c == underscore_char && !needDigit then hex_tail true rest
    else false

/-- `int`'s digit group: at least one hex digit, then digits with
single underscores between them (no leading, trailing or doubled
underscore). -/
def nonempty_hex_digits : List Char → Bool
  | [] => false
  | c :: rest => is_hex_digit c && hex_tail false rest

/-- `int(s, 16)` succeeds on the ASCII string `s`: optional
surrounding `int`-whitespace, an optional single `+` or `-` sign, an
optional `0x`/`0X` prefix (which may be followed by one underscore),
then a non-empty digit group with single underscores between digits.
The grammar was validated exhaustively against CPython on ASCII
inputs.  (On non-ASCII strings CPython first maps Unicode decimal
digits and Unicode whitespace to ASCII; that transform is outside
this model's ASCII scope, which the theorems make explicit.) -/
def int16_accepts (s : List Char) : Bool :=
  let t1 := s.dropWhile is_py_intspace
  let t2 := (t1.reverse.dropWhile is_py_intspace).reverse
  let t3 :=
    match t2 with
    | c :: rest => if c == plus_char || c == hyphen_char then rest else t2
    | [] => t2
  match t3 with
  | c0 :: c1 :: rest =>
    if c0 == zero_char && (c1 == lower_x_char || c1 == upper_x_char) then
      match rest with
      | u :: rest2 =>
        if u == underscore_char then nonempty_hex_digits rest2
        else nonempty_hex_digits rest
      | [] => false
    else nonempty_hex_digits t3
  | _ => nonempty_hex_digits t3

/-- `uuid.UUID(v)` succeeds: after deleting `urn:` and `uuid:`
occurrences, stripping braces from the ends and deleting hyphens,
exactly 32 characters remain and `int(hex, 16)` parses them.  (The
resulting value is automatically below 2^128, and the deleted hyphens
mean no minus sign can survive to `int`, so no further range check
can fail.) -/
def uuid_parse_ok (v : String) : Bool :=
  let h1 := py_replace_delete "urn:" v.toList
  let h2 := py_replace_delete "uuid:" h1
  let h3 := py_strip_braces h2
  let h4 := h3.filter (fun c => c != hyphen_char)
  h4.length == 32 && int16_accepts h4

/-- A character of the validator's safe class `[a-zA-Z0-9_\-]`. -/
def is_safe_char (c : Char) : Bool :=
  c.isAlphanum || c == Char.ofNat 45 || c == Char.ofNat 95

/-- The newline character. -/
def newline_char : Char := Char.ofNat 10

/-- `re.match(r"^[a-zA-Z0-9_\-]+$", v)` succeeds: one or more safe
characters spanning the string, where `$` may also match just before
one trailing newline. -/
def safe_pattern_match (v : String) : Bool :=
  let cs := v.toList
  (!cs.isEmpty && cs.all is_safe_char)
  || (cs.getLast? == some newline_char && !cs.dropLast.isEmpty
      && cs.dropLast.all is_safe_char)

/-- `validate_session_id`: accept when `uuid.UUID(v)` succeeds; on its
`ValueError`, accept iff the safe regex matches, otherwise raise. -/
def validate_session_id (v : String) : Except String String :=
  if uuid_parse_ok v then Except.ok v
  else if safe_pattern_match v then Except.ok v
  else Except.error
    "Session ID must contain only alphanumeric characters, underscores, and hyphens"

/-- Whether validation accepts the string. -/
def accepts (v : String) : Bool :=
  match validate_session_id v with
  | Except.ok _ => true
  | Except.error _ => false

theorem safe_pattern_match_iff (v : String) :
    safe_pattern_match v = true ↔
      ((v.toList ≠ [] ∧ ∀ c ∈ v.toList, is_safe_char c = true)
       ∨ (v.toList.getLast? = some newline_char ∧ v.toList.dropLast ≠ []
          ∧ ∀ c ∈ v.toList.dropLast, is_safe_char c = true)) := by
  simp [safe_pattern_match, List.all_eq_true, Bool.or_eq_true, Bool.and_eq_true,
    List.isEmpty_iff, and_assoc]

/-- C9 counterexample: the validator accepts
`"\x7beeeeeeeeeeeeeeeeeeeeeeeeeeeeeeee\x7d"` (32 hex digits wrapped
in braces, a form `uuid.UUID` tolerates), yet that string contains a
left brace, which is neither alphanumeric nor a hyphen nor an
underscore -- refuting the claim that every accepted session id
consists only of those characters. -/
theorem session_id_accepts_braced_uuid :
    accepts "\x7beeeeeeeeeeeeeeeeeeeeeeeeeeeeeeee\x7d" = true
    ∧ Char.ofNat 123 ∈ ("\x7beeeeeeeeeeeeeeeeeeeeeeeeeeeeeeee\x7d" : String).toList
    ∧ is_safe_char (Char.ofNat 123) = false := by
  refine ⟨by decide, by decide, by decide⟩

/-- C9 (amended): restricted to ASCII session ids (Python's `int`
additionally maps Unicode digit and whitespace characters, which the
model leaves out of scope), a session id is accepted iff it parses as
a UUID under Python's lenient normalisation -- which tolerates brace
wrapping, `urn:`/`uuid:` fragments and hyphens anywhere, and whose
32-character body may carry `int(.., 16)`'s leading/trailing
whitespace, an optional sign, an optional `0x`/`0X` prefix and
digit-group underscores -- or it consists only of alphanumeric
characters, hyphens and underscores, possibly followed by a single
trailing newline that the anchored Python regex tolerates; every
other ASCII string is rejected. -/
theorem session_id_validation_classes (v : String)
    (hascii : ∀ c ∈ v.toList, c.toNat < 128) :
    accepts v = true ↔
      (uuid_parse_ok v = true
       ∨ (v.toList ≠ [] ∧ ∀ c ∈ v.toList, is_safe_char c = true)
       ∨ (v.toList.getLast? = some newline_char ∧ v.toList.dropLast ≠ []
          ∧ ∀ c ∈ v.toList.dropLast, is_safe_char c = true)) := by
  have hsafe := safe_pattern_match_iff v
  constructor
  · intro h
    by_cases h1 : uuid_parse_ok v = true
    · exact Or.inl h1
    · by_cases h2 : safe_pattern_match v = true
      · exact Or.inr (hsafe.mp h2)
      · exfalso
        simp only [accepts, validate_session_id, if_neg h1, if_neg h2] at h
        cases h
  · intro h
    rcases h with h | h
    · simp only [accepts, validate_session_id, if_pos h]
    · have h2 : safe_pattern_match v = true := hsafe.mpr h
      by_cases h1 : uuid_parse_ok v = true
      · simp only [accepts, validate_session_id, if_pos h1]
      · simp only [accepts, validate_session_id, if_neg h1, if_pos h2]

/-- C9 witness: a safe token is accepted (via the amended theorem's
characterisation applied at a concrete ASCII string); a string with a
space and an exclamation mark is rejected; and the `int` leniencies
are live: a 32-character body with a leading `+`, and one with a
brace-wrapped `0x` prefix, are both accepted. -/
theorem session_id_validation_classes_witness :
    accepts "abc-123_X" = true
    ∧ accepts "no spaces!" = false
    ∧ accepts "+eeeeeeeeeeeeeeeeeeeeeeeeeeeeeee" = true
    ∧ accepts "\x7b0xeeeeeeeeeeeeeeeeeeeeeeeeeeeeee\x7d" = true :=
  ⟨(session_id_validation_classes "abc-123_X" (by decide)).mpr
      (Or.inr (Or.inl (by decide))),
    by decide, by decide, by decide⟩

end Agent
